/-
Verification of the AfriTube monetization/earnings subsystem.

The development embeds, as pure Lean functions:
  * the subsystem operations described by the design specification
    (rate table, earnings ledger, balance aggregator, payout lifecycle) —
    these operations are not implemented in the repository's source tree,
    which only declares the relevant Django models (`models.py`), seeds
    sample rows (`management/commands/seed_data.py`) and exposes bulk
    admin actions (`admin.py`); such definitions are marked
    "Modelled from the spec";
  * the concrete source code paths that do exist: the admin action
    `process_payouts` (admin.py), the view-tracking handler
    `track_video_view` (views.py), and the relevant parts of the
    `seed_data` management command (seed_data.py).

Decimal amounts are modelled as rationals, timestamps as integers.
-/
import Mathlib

namespace AfriTube

/-- Error kinds of the subsystem (spec section 7). -/
inductive Err where
  | InvalidAmount
  | RateNotConfigured
  | InsufficientBalance
  | InvalidPaymentDetails
  | InvalidTransition
  | ConcurrentModification
deriving DecidableEq, Repr

/-- Payout request status (models.py, PayoutRequest.STATUS_CHOICES). -/
inductive PStatus where
  | pending
  | processing
  | completed
  | rejected
deriving DecidableEq, Repr

/-- Payout payment method (models.py, PayoutRequest.PAYMENT_METHOD_CHOICES). -/
inductive PMethod where
  | mpesa
  | paypal
  | bank_transfer
deriving DecidableEq, Repr

/-- Earnings type (models.py, EarningsRecord.EARNINGS_TYPE_CHOICES). -/
inductive EType where
  | video_view
  | video_purchase
  | live_stream
  | video_call
  | subscription
  | bonus
deriving DecidableEq, Repr

/-! ## Rate table

Modelled from the spec (sections 3 and 4.1): a time-bounded rate history for a
single rate_type.  `set_rate`/`get_active_rate` are not implemented in the
source tree; `models.py` only declares `MonetizationRate` (with `rate_type`
unique, so the stored table can hold at most one row per type and no
supersession history).  The rate list is kept newest-first: the head is the
open rate (`effective_until = none`), each following rate is closed at the
`effective_from` of the rate superseding it. -/

/-- A monetization rate row: decimal value, currency code and an effective
window `[effective_from, effective_until)` (open-ended when
`effective_until = none`).  Modelled from the spec, section 3. -/
structure Rate where
  value : Rat
  currency : String
  effective_from : Int
  effective_until : Option Int
deriving DecidableEq, Repr

/-- Whether the instant `t` lies inside the rate's effective window. -/
def activeAt (t : Int) (r : Rate) : Bool :=
  decide (r.effective_from ≤ t) &&
    (match r.effective_until with
     | none => true
     | some u => decide (t < u))

/-- Modelled from the spec, section 4.1: `set_rate` closes the
currently-open rate of the type (its `effective_until` becomes the new
`effective_from`) and inserts the new open row, atomically.  Supersession
uses an overlapping-or-later `effective_from` (section 3); an out-of-order
supersession attempt is rejected at the transactional boundary
(sections 5 and 7) and leaves the table unchanged. -/
def set_rate (v : Rat) (c : String) (f : Int) :
    List Rate → Except Err (List Rate)
  | [] => .ok [⟨v, c, f, none⟩]
  | r :: rs =>
    if f < r.effective_from then .error .ConcurrentModification
    else .ok (⟨v, c, f, none⟩ :: { r with effective_until := some f } :: rs)

/-- Modelled from the spec, section 4.1: returns the rate whose effective
window contains `t`, or fails with `RateNotConfigured`. -/
def get_active_rate (t : Int) (l : List Rate) : Except Err Rate :=
  match l.find? (activeAt t) with
  | some r => .ok r
  | none => .error .RateNotConfigured

/-- Apply one `set_rate` call; a rejected call leaves the table unchanged. -/
def applySetRate (p : Rat × String × Int) (l : List Rate) : List Rate :=
  match set_rate p.1 p.2.1 p.2.2 l with
  | .ok l2 => l2
  | .error _ => l

/-- Run a sequence of `set_rate` calls starting from the empty table. -/
def runSetRates (ops : List (Rat × String × Int)) : List Rate :=
  ops.foldl (fun l p => applySetRate p l) []

/-- The closed portion of a rate history: every rate is closed exactly at the
`effective_from` of the rate above it, and starts no later than that point. -/
def ChainFrom (f : Int) : List Rate → Prop
  | [] => True
  | r :: rs =>
      r.effective_until = some f ∧ r.effective_from ≤ f ∧
        ChainFrom r.effective_from rs

/-- Well-formed rate history: the head is the open rate and the tail is a
chain of abutting closed windows. -/
def RateWF : List Rate → Prop
  | [] => True
  | r :: rs => r.effective_until = none ∧ ChainFrom r.effective_from rs


/-! ## Earnings ledger, balance aggregator and payout lifecycle

Modelled from the spec (sections 3, 4.2, 4.3 and 4.4): none of
`record_earning`, `get_available_balance`, `create_payout_request`,
`begin_processing`, `complete` or `reject` is implemented in the source
tree — `models.py` only declares the `EarningsRecord` and `PayoutRequest`
tables, `seed_data.py` inserts sample rows directly, and `admin.py`
performs bulk status updates. -/

/-- An immutable earnings ledger entry (spec section 3, `EarningsEntry`;
declared in models.py as `EarningsRecord`): creator reference, earnings
type, amount, currency, optional reference to the originating content
entity, description and creation timestamp. -/
structure Entry where
  creator : String
  etype : EType
  amount : Rat
  currency : String
  reference : Option Nat
  description : String
  timestamp : Int
deriving DecidableEq, Repr

/-- A payout request (spec section 3, `PayoutRequest`; declared in
models.py): creator, amount, method, the three method-specific detail
fields, status, transaction id and rejection reason. -/
structure Payout where
  creator : String
  amount : Rat
  method : PMethod
  mpesa_number : String
  paypal_email : String
  bank_account : String
  status : PStatus
  transaction_id : String
  rejection_reason : String
deriving DecidableEq, Repr

/-- Modelled from the spec, section 3: exactly one of the method-specific
payment detail fields (phone number for mpesa, email for paypal, account
identifier for bank_transfer) is populated, matching the method. -/
def specDetailsValid (m : PMethod) (mp pe ba : String) : Bool :=
  match m with
  | .mpesa => mp ≠ "" && pe = "" && ba = ""
  | .paypal => mp = "" && pe ≠ "" && ba = ""
  | .bank_transfer => mp = "" && pe = "" && ba ≠ ""

/-- The subsystem state: the append-only ledger and the payout requests. -/
structure MState where
  entries : List Entry
  payouts : List Payout
deriving DecidableEq, Repr

/-- The empty initial state. -/
def initState : MState := ⟨[], []⟩

/-- Sum of the ledger amounts attributed to creator `c`. -/
def entriesSum (c : String) (l : List Entry) : Rat :=
  l.foldr (fun e acc => if e.creator = c then e.amount + acc else acc) 0

/-- Whether a payout's amount is held against the balance: pending and
processing requests reserve funds, completed ones are disbursed; only
rejected requests release the amount (spec sections 3 and 4.4). -/
def reservedStatus (st : PStatus) : Bool :=
  match st with
  | .pending => true
  | .processing => true
  | .completed => true
  | .rejected => false

/-- Sum of the payout amounts of creator `c` in states pending, processing
or completed. -/
def payoutSum (c : String) (l : List Payout) : Rat :=
  l.foldr
    (fun p acc =>
      if p.creator = c && reservedStatus p.status then p.amount + acc
      else acc) 0

/-- Modelled from the spec, section 3: `total_earnings` is the sum of all
ledger entries of the creator. -/
def total_earnings (c : String) (s : MState) : Rat :=
  entriesSum c s.entries

/-- Modelled from the spec, sections 3 and 4.3: available balance is the
ledger sum minus the amounts of pending/processing/completed payouts. -/
def get_available_balance (c : String) (s : MState) : Rat :=
  entriesSum c s.entries - payoutSum c s.payouts

/-- Modelled from the spec, section 4.2: `record_earning` rejects a
negative amount with `InvalidAmount` and otherwise appends the entry to
the ledger. -/
def record_earning (e : Entry) (s : MState) : Except Err MState :=
  if e.amount < 0 then .error .InvalidAmount
  else .ok { s with entries := s.entries ++ [e] }

/-- Modelled from the spec, sections 4.3 and 4.4: `create_payout_request`
fails with `InsufficientBalance` if the amount exceeds the available
balance, with `InvalidAmount` if the amount is not positive (section 7:
"negative or zero where positive required"), and with
`InvalidPaymentDetails` if the details do not match the method's required
field; otherwise it appends a request in state pending. -/
def create_payout_request (c : String) (amount : Rat) (m : PMethod)
    (mp pe ba : String) (s : MState) : Except Err MState :=
  if get_available_balance c s < amount then .error .InsufficientBalance
  else if amount ≤ 0 then .error .InvalidAmount
  else if ¬ specDetailsValid m mp pe ba then .error .InvalidPaymentDetails
  else .ok { s with
    payouts := s.payouts ++ [⟨c, amount, m, mp, pe, ba, .pending, "", ""⟩] }

/-- Modelled from the spec, section 4.4: pending → processing; idempotent
no-op if already processing; `InvalidTransition` from any other state. -/
def begin_processing (i : Nat) (s : MState) : Except Err MState :=
  match s.payouts[i]? with
  | none => .error .InvalidTransition
  | some p =>
    match p.status with
    | .pending =>
        .ok { s with payouts := s.payouts.set i { p with status := .processing } }
    | .processing => .ok s
    | _ => .error .InvalidTransition

/-- Modelled from the spec, section 4.4: processing → completed, recording
the transaction id; `InvalidTransition` from any other state. -/
def complete (i : Nat) (tx : String) (s : MState) : Except Err MState :=
  match s.payouts[i]? with
  | none => .error .InvalidTransition
  | some p =>
    match p.status with
    | .processing =>
        .ok { s with
          payouts := s.payouts.set i
            { p with status := .completed, transaction_id := tx } }
    | _ => .error .InvalidTransition

/-- Modelled from the spec, section 4.4: pending or processing → rejected,
recording the reason; `InvalidTransition` from any other state. -/
def reject (i : Nat) (reason : String) (s : MState) : Except Err MState :=
  match s.payouts[i]? with
  | none => .error .InvalidTransition
  | some p =>
    match p.status with
    | .pending =>
        .ok { s with
          payouts := s.payouts.set i
            { p with status := .rejected, rejection_reason := reason } }
    | .processing =>
        .ok { s with
          payouts := s.payouts.set i
            { p with status := .rejected, rejection_reason := reason } }
    | _ => .error .InvalidTransition

/-- One operation of the subsystem interface (spec section 6). -/
inductive MOp where
  | record (e : Entry)
  | create (c : String) (amount : Rat) (m : PMethod) (mp pe ba : String)
  | beginProc (i : Nat)
  | completeOp (i : Nat) (tx : String)
  | rejectOp (i : Nat) (reason : String)
deriving DecidableEq, Repr

/-- Step function of the subsystem. -/
def stepM : MOp → MState → Except Err MState
  | .record e, s => record_earning e s
  | .create c amount m mp pe ba, s => create_payout_request c amount m mp pe ba s
  | .beginProc i, s => begin_processing i s
  | .completeOp i tx, s => complete i tx s
  | .rejectOp i reason, s => reject i reason s

/-- Apply one operation; a failed operation leaves the state unchanged
(spec section 7: no partial writes). -/
def applyM (op : MOp) (s : MState) : MState :=
  match stepM op s with
  | .ok s2 => s2
  | .error _ => s

/-- Run a sequence of operations from the empty initial state. -/
def runM (ops : List MOp) : MState :=
  ops.foldl (fun s op => applyM op s) initState

/-- The contribution of a single payout to `payoutSum c`. -/
def payoutContrib (c : String) (p : Payout) : Rat :=
  if p.creator = c && reservedStatus p.status then p.amount else 0

/-- Invariant of reachable subsystem states: ledger amounts are
non-negative, payout amounts are positive, and every creator's available
balance is non-negative. -/
def GoodState (s : MState) : Prop :=
  (∀ e ∈ s.entries, 0 ≤ e.amount) ∧ (∀ p ∈ s.payouts, 0 < p.amount) ∧
    (∀ c, 0 ≤ get_available_balance c s)

/-! ## Per-view earnings computation

Modelled from the spec, section 4.2.  The source tree does not implement
this computation: section 9 of the spec records that views are inserted
with a placeholder `earnings_generated` instead of an amount derived from
the rate table, and `track_video_view` (views.py) records no earnings at
all. -/

/-- Modelled from the spec, section 4.2: the engagement multiplier derives
from an engagement_bonus rate, applied when the view's completion
percentage meets the configurable threshold; without a configured bonus
rate the multiplier is 1. -/
def engagementMultiplier (bonus : Option Rat) (completion threshold : Nat) :
    Rat :=
  match bonus with
  | some b => if threshold ≤ completion then 1 + b else 1
  | none => 1

/-- Modelled from the spec, section 4.2:
`amount = (1 view / 1000) * active_base_cpm_rate * engagement_multiplier`,
a pure function of the rate table and the view event.  `baseCpmRates` and
`bonusRates` are the rate histories of the base_cpm and engagement_bonus
rate types. -/
def compute_view_earning (baseCpmRates bonusRates : List Rate)
    (completion threshold : Nat) (t : Int) : Except Err Rat :=
  match get_active_rate t baseCpmRates with
  | .error e => .error e
  | .ok r =>
    .ok (1 / 1000 * r.value *
      engagementMultiplier
        (match get_active_rate t bonusRates with
         | .ok b => some b.value
         | .error _ => none) completion threshold)

/-! ## Source embeddings: admin.py -/

/-- Embeds the admin action `process_payouts` (admin.py, lines 32-34):
`queryset.update(status='processing')` sets the status of every selected
payout request to processing, unconditionally. -/
def process_payouts (queryset : List Payout) : List Payout :=
  queryset.map (fun p => { p with status := .processing })

/-- Modelled from the spec, section 4.4: the directed edges of the payout
state machine — pending → processing, processing → completed,
pending → rejected, processing → rejected. -/
def specAllowedTransition (a b : PStatus) : Bool :=
  match a, b with
  | .pending, .processing => true
  | .processing, .completed => true
  | .pending, .rejected => true
  | .processing, .rejected => true
  | _, _ => false

/-! ## Source embeddings: views.py -/

/-- A VideoView row as created by `track_video_view` (views.py and the
VideoView model defaults in models.py). -/
structure ViewRec where
  userId : Option String
  ip_address : String
  user_agent : String
  country : String
  watch_duration_seconds : Int
  completion_percentage : Nat
  is_monetized : Bool
  earnings_generated : Rat
deriving DecidableEq, Repr

/-- The state touched by `track_video_view`: the video's view rows and
view counter, the creator's total_views counter, the earnings ledger rows
and the per-user watch history (user, last_watched). -/
structure TrackState where
  views : List ViewRec
  view_count : Nat
  creator_total_views : Nat
  earnings_records : List Entry
  watch_history : List (String × Int)
deriving DecidableEq, Repr

/-- Embeds `WatchHistory.objects.update_or_create` as called from
`track_video_view` (views.py): update the user's `last_watched` to now if
a row exists, otherwise create one. -/
def updateOrCreateHistory (u : String) (now : Int)
    (l : List (String × Int)) : List (String × Int) :=
  if l.any (fun h => h.1 = u) then
    l.map (fun h => if h.1 = u then (u, now) else h)
  else l ++ [(u, now)]

/-- Embeds `get_country_from_ip` (views.py): always returns the empty
string. -/
def get_country_from_ip (_ip : String) : String := ""

/-- Embeds `track_video_view` (views.py, lines 564-594): creates one
VideoView with watch_duration of 0 seconds, completion_percentage 0 and
the model defaults is_monetized = False and earnings_generated = 0;
increments the video's view_count and the creator's total_views by one;
updates the watch history for authenticated users.  `authUser` is the
authenticated user, if any. -/
def track_video_view (authUser : Option String) (ip ua : String)
    (now : Int) (s : TrackState) : TrackState :=
  let s1 := { s with
    views := s.views ++
      [({ userId := authUser, ip_address := ip, user_agent := ua,
          country := get_country_from_ip ip, watch_duration_seconds := 0,
          completion_percentage := 0, is_monetized := false,
          earnings_generated := 0 } : ViewRec)] }
  let s2 := { s1 with view_count := s1.view_count + 1 }
  let s3 := { s2 with creator_total_views := s2.creator_total_views + 1 }
  match authUser with
  | some u =>
      { s3 with watch_history := updateOrCreateHistory u now s3.watch_history }
  | none => s3

/-! ## Source embeddings: seed_data.py -/

/-- The earnings-related fields of a creator row during seeding: the
cached `total_earnings` counter (models.py, User) and the amounts of the
creator's EarningsRecord rows. -/
structure CreatorEarningsState where
  cached_total_earnings : Rat
  earnings_amounts : List Rat
deriving DecidableEq, Repr

/-- Embeds the `total_earnings=Decimal(random.uniform(0, 5000))` assignment
in `seed_users` (seed_data.py, lines 319-320): the cached counter is set to
an arbitrary value `w`, independent of the ledger. -/
def seedUsersSetCache (w : Rat) (s : CreatorEarningsState) :
    CreatorEarningsState :=
  { s with cached_total_earnings := w }

/-- Embeds one `EarningsRecord.objects.create(...)` call in `seed_earnings`
(seed_data.py, lines 988-996): the row is inserted and nothing else — in
particular the creator's cached `total_earnings` is not updated. -/
def seedEarningsCreate (amount : Rat) (s : CreatorEarningsState) :
    CreatorEarningsState :=
  { s with earnings_amounts := s.earnings_amounts ++ [amount] }

/-- Sum of a list of rationals. -/
def ratSum (l : List Rat) : Rat := l.foldr (· + ·) 0

/-- Embeds the payment-detail assignment of `seed_payout_requests`
(seed_data.py, lines 1022-1026): mpesa copies the creator's mpesa number,
paypal uses the creator's paypal email or the `username@example.com`
fallback, and the bank_transfer branch assigns no detail field at all.
Returns (mpesa_number, paypal_email, bank_account). -/
def seedPayoutDetails (m : PMethod)
    (creatorMpesa creatorPaypal username : String) :
    String × String × String :=
  match m with
  | .mpesa => (creatorMpesa, "", "")
  | .paypal =>
      ("",
       (if creatorPaypal = "" then username ++ "@example.com"
        else creatorPaypal),
       "")
  | .bank_transfer => ("", "", "")

/-- Embeds `PayoutRequest.objects.create(**payout_data)` in
`seed_payout_requests` (seed_data.py, lines 1014-1027): the request is
inserted with the given amount, method, seeded status and transaction id,
and the detail fields produced by `seedPayoutDetails`; no validation is
performed. -/
def seedPayoutCreate (c : String) (amount : Rat) (m : PMethod)
    (st : PStatus) (tx : String)
    (creatorMpesa creatorPaypal username : String)
    (l : List Payout) : List Payout :=
  let d := seedPayoutDetails m creatorMpesa creatorPaypal username
  l ++ [⟨c, amount, m, d.1, d.2.1, d.2.2, st, tx, ""⟩]

/-- A MonetizationRate row (models.py, MonetizationRate): rate_type is
declared unique. -/
structure MRate where
  rate_type : String
  value : Rat
  currency : String
  description : String
  is_active : Bool
  effective_from : Int
  effective_until : Option Int
deriving DecidableEq, Repr

/-- Embeds `MonetizationRate.objects.get_or_create(rate_type=..., defaults=...)`
(seed_data.py, lines 274-277): if a row of the rate_type exists the table
is unchanged, otherwise the defaults row is inserted. -/
def rateGetOrCreate (rt : String) (defaults : MRate) (l : List MRate) :
    List MRate :=
  if l.any (fun r => r.rate_type = rt) then l else l ++ [defaults]

/-- Embeds the `rates_data` literal of `seed_monetization_rates`
(seed_data.py, lines 242-271); `now` stands for `timezone.now()` measured
in days, and the model defaults `is_active = True`,
`effective_until = null` apply. -/
def seedRatesData (now : Int) : List MRate :=
  [⟨"base_cpm", 1, "USD", "Base rate per 1000 views", true, now - 90, none⟩,
   ⟨"engagement_bonus", 1 / 2, "USD", "Bonus for high engagement", true,
     now - 90, none⟩,
   ⟨"premium_rate", 2, "USD", "Premium content multiplier", true,
     now - 90, none⟩,
   ⟨"platform_fee", 20, "USD", "Platform fee percentage", true,
     now - 90, none⟩]

/-- Embeds `seed_monetization_rates` (seed_data.py, lines 240-279): one
`get_or_create` keyed on rate_type per row of `rates_data`. -/
def seed_monetization_rates (now : Int) (l : List MRate) : List MRate :=
  (seedRatesData now).foldl (fun acc rd => rateGetOrCreate rd.rate_type rd acc) l

/-! ## Rate table lemmas -/

theorem rateWF_empty : RateWF [] := trivial

theorem rateWF_applySetRate (p : Rat × String × Int) (l : List Rate)
    (h : RateWF l) : RateWF (applySetRate p l) := by
  obtain ⟨v, c, f⟩ := p
  cases l with
  | nil =>
    simp [applySetRate, set_rate, RateWF, ChainFrom]
  | cons r rs =>
    by_cases hf : f < r.effective_from
    · simpa [applySetRate, set_rate, hf] using h
    · obtain ⟨_, hchain⟩ := h
      simp only [applySetRate, set_rate, hf, if_false]
      exact ⟨rfl, rfl, le_of_not_lt hf, hchain⟩

theorem chain_active_lt {f : Int} {rs : List Rate} (h : ChainFrom f rs)
    {t : Int} {r : Rate} (hr : r ∈ rs) (ha : activeAt t r = true) : t < f := by
  induction rs generalizing f with
  | nil => cases hr
  | cons r0 rs0 ih =>
    obtain ⟨huntil, hle, hch⟩ := h
    rcases List.mem_cons.mp hr with hr | hr
    · subst hr
      simp only [activeAt, huntil, Bool.and_eq_true, decide_eq_true_eq] at ha
      exact ha.2
    · exact lt_of_lt_of_le (ih hch hr) hle

theorem chain_countP {f : Int} {rs : List Rate} (h : ChainFrom f rs)
    (t : Int) : rs.countP (activeAt t) ≤ 1 := by
  induction rs generalizing f with
  | nil => simp
  | cons r0 rs0 ih =>
    obtain ⟨huntil, _, hch⟩ := h
    by_cases ha : activeAt t r0 = true
    · have hzero : rs0.countP (activeAt t) = 0 := by
        rw [List.countP_eq_zero]
        intro r hr hra
        have h1 : t < r0.effective_from := chain_active_lt hch hr hra
        have h2 : r0.effective_from ≤ t := by
          simp only [activeAt, Bool.and_eq_true, decide_eq_true_eq] at ha
          exact ha.1
        exact absurd (lt_of_le_of_lt h2 h1) (lt_irrefl _)
      rw [List.countP_cons_of_pos _ _ ha, hzero]
    · rw [List.countP_cons_of_neg _ _ ha]
      exact ih hch

theorem chain_coverage {f : Int} {rs : List Rate} (h : ChainFrom f rs)
    {t : Int} (hlt : t < f) (hmem : ∃ r ∈ rs, r.effective_from ≤ t) :
    ∃ r ∈ rs, activeAt t r = true := by
  induction rs generalizing f with
  | nil => obtain ⟨r, hr, _⟩ := hmem; cases hr
  | cons r0 rs0 ih =>
    obtain ⟨huntil, _, hch⟩ := h
    by_cases h0 : r0.effective_from ≤ t
    · refine ⟨r0, List.mem_cons_self _ _, ?_⟩
      simp [activeAt, huntil, h0, hlt]
    · obtain ⟨r, hr, hrle⟩ := hmem
      rcases List.mem_cons.mp hr with hr | hr
      · subst hr; exact absurd hrle h0
      · obtain ⟨r1, hr1, ha1⟩ := ih hch (lt_of_not_le h0) ⟨r, hr, hrle⟩
        exact ⟨r1, List.mem_cons_of_mem _ hr1, ha1⟩

theorem rateWF_countP {l : List Rate} (h : RateWF l) (t : Int) :
    l.countP (activeAt t) ≤ 1 := by
  cases l with
  | nil => simp
  | cons r rs =>
    obtain ⟨huntil, hch⟩ := h
    by_cases ha : activeAt t r = true
    · have hfrom : r.effective_from ≤ t := by
        simp only [activeAt, Bool.and_eq_true, decide_eq_true_eq] at ha
        exact ha.1
      have hzero : rs.countP (activeAt t) = 0 := by
        rw [List.countP_eq_zero]
        intro r1 hr1 hra1
        exact absurd (lt_of_le_of_lt hfrom (chain_active_lt hch hr1 hra1))
          (lt_irrefl _)
      rw [List.countP_cons_of_pos _ _ ha, hzero]
    · rw [List.countP_cons_of_neg _ _ ha]
      exact chain_countP hch t

theorem rateWF_coverage {l : List Rate} (h : RateWF l) {t : Int}
    (hmem : ∃ r ∈ l, r.effective_from ≤ t) :
    ∃ r ∈ l, activeAt t r = true := by
  cases l with
  | nil => obtain ⟨r, hr, _⟩ := hmem; cases hr
  | cons r rs =>
    obtain ⟨huntil, hch⟩ := h
    by_cases h0 : r.effective_from ≤ t
    · exact ⟨r, List.mem_cons_self _ _, by simp [activeAt, huntil, h0]⟩
    · obtain ⟨r1, hr1, hle1⟩ := hmem
      rcases List.mem_cons.mp hr1 with hr1 | hr1
      · subst hr1; exact absurd hle1 h0
      · obtain ⟨r2, hr2, ha2⟩ :=
          chain_coverage hch (lt_of_not_le h0) ⟨r1, hr1, hle1⟩
        exact ⟨r2, List.mem_cons_of_mem _ hr2, ha2⟩

theorem rateWF_runSetRates (ops : List (Rat × String × Int)) :
    RateWF (runSetRates ops) := by
  suffices h : ∀ l, RateWF l →
      RateWF (ops.foldl (fun l p => applySetRate p l) l) by
    exact h [] rateWF_empty
  induction ops with
  | nil => intro l hl; simpa using hl
  | cons p ps ih =>
    intro l hl
    exact ih _ (rateWF_applySetRate p l hl)

theorem get_active_rate_ok {t : Int} {l : List Rate} {r : Rate}
    (h : get_active_rate t l = .ok r) : r ∈ l ∧ activeAt t r = true := by
  unfold get_active_rate at h
  cases hf : l.find? (activeAt t) with
  | none => rw [hf] at h; cases h
  | some r0 =>
    rw [hf] at h
    cases h
    exact ⟨List.mem_of_find?_eq_some hf, List.find?_some hf⟩

theorem get_active_rate_error_iff {t : Int} {l : List Rate} :
    get_active_rate t l = .error .RateNotConfigured ↔
      ∀ r ∈ l, activeAt t r = false := by
  unfold get_active_rate
  cases hf : l.find? (activeAt t) with
  | none =>
    simp only [true_iff]
    intro r hr
    exact eq_false_of_ne_true (List.find?_eq_none.mp hf r hr)
  | some r0 =>
    constructor
    · intro h; cases h
    · intro h
      have := h r0 (List.mem_of_find?_eq_some hf)
      rw [List.find?_some hf] at this
      cases this
/-! ## Ledger and payout lemmas -/

theorem entriesSum_cons (c : String) (e : Entry) (l : List Entry) :
    entriesSum c (e :: l) =
      (if e.creator = c then e.amount else 0) + entriesSum c l := by
  simp only [entriesSum, List.foldr_cons]
  split <;> simp

theorem entriesSum_append (c : String) (l : List Entry) (e : Entry) :
    entriesSum c (l ++ [e]) =
      entriesSum c l + (if e.creator = c then e.amount else 0) := by
  induction l with
  | nil =>
    simp only [List.nil_append, entriesSum_cons]
    simp [entriesSum]
  | cons x xs ih =>
    rw [List.cons_append, entriesSum_cons, ih, entriesSum_cons]
    ring

theorem payoutSum_cons (c : String) (p : Payout) (l : List Payout) :
    payoutSum c (p :: l) = payoutContrib c p + payoutSum c l := by
  simp only [payoutSum, payoutContrib, List.foldr_cons]
  split <;> simp

theorem payoutSum_append (c : String) (l : List Payout) (p : Payout) :
    payoutSum c (l ++ [p]) = payoutSum c l + payoutContrib c p := by
  induction l with
  | nil =>
    simp only [List.nil_append, payoutSum_cons]
    simp [payoutSum]
  | cons x xs ih =>
    rw [List.cons_append, payoutSum_cons, ih, payoutSum_cons]
    ring

theorem payoutSum_set (c : String) (l : List Payout) (i : Nat)
    (p q : Payout) (h : l[i]? = some p) :
    payoutSum c (l.set i q) =
      payoutSum c l - payoutContrib c p + payoutContrib c q := by
  induction l generalizing i with
  | nil => simp at h
  | cons x xs ih =>
    cases i with
    | zero =>
      simp only [List.getElem?_cons_zero, Option.some.injEq] at h
      subst h
      rw [List.set_cons_zero, payoutSum_cons, payoutSum_cons]
      ring
    | succ j =>
      simp only [List.getElem?_cons_succ] at h
      rw [List.set_cons_succ, payoutSum_cons, payoutSum_cons, ih j h]
      ring

theorem payoutContrib_nonneg {c : String} {p : Payout}
    (h : 0 < p.amount) : 0 ≤ payoutContrib c p := by
  unfold payoutContrib
  split
  · exact le_of_lt h
  · exact le_refl 0

theorem mem_of_getElem_some {α : Type} {l : List α} {i : Nat} {a : α}
    (h : l[i]? = some a) : a ∈ l := by
  induction l generalizing i with
  | nil => simp at h
  | cons x xs ih =>
    cases i with
    | zero =>
      simp only [List.getElem?_cons_zero, Option.some.injEq] at h
      exact h ▸ List.mem_cons_self _ _
    | succ j =>
      simp only [List.getElem?_cons_succ] at h
      exact List.mem_cons_of_mem _ (ih h)

theorem goodState_init : GoodState initState := by
  refine ⟨?_, ?_, ?_⟩
  · intro e he; cases he
  · intro p hp; cases hp
  · intro c
    simp [get_available_balance, initState, entriesSum, payoutSum]

theorem goodState_applyM (op : MOp) (s : MState) (h : GoodState s) :
    GoodState (applyM op s) := by
  obtain ⟨hent, hpay, hbal⟩ := h
  cases op with
  | record e =>
    unfold applyM stepM record_earning
    by_cases hneg : e.amount < 0
    · simpa [hneg] using ⟨hent, hpay, hbal⟩
    · simp only [hneg, if_false]
      refine ⟨?_, hpay, ?_⟩
      · intro e1 he1
        rcases List.mem_append.mp he1 with h1 | h1
        · exact hent e1 h1
        · rw [List.mem_singleton.mp h1]
          exact le_of_not_lt hneg
      · intro c
        have : get_available_balance c
            { s with entries := s.entries ++ [e] } =
            get_available_balance c s +
              (if e.creator = c then e.amount else 0) := by
          simp only [get_available_balance, entriesSum_append]
          ring
        rw [this]
        have h0 : (0 : Rat) ≤ (if e.creator = c then e.amount else 0) := by
          split
          · exact le_of_not_lt hneg
          · exact le_refl 0
        exact add_nonneg (hbal c) h0
  | create c amount m mp pe ba =>
    unfold applyM stepM create_payout_request
    by_cases h1 : get_available_balance c s < amount
    · simpa [h1] using ⟨hent, hpay, hbal⟩
    by_cases h2 : amount ≤ 0
    · simpa [h1, h2] using ⟨hent, hpay, hbal⟩
    by_cases h3 : specDetailsValid m mp pe ba
    · simp only [h1, if_false, h2, h3, not_true, if_true]
      refine ⟨hent, ?_, ?_⟩
      · intro p hp
        rcases List.mem_append.mp hp with hp1 | hp1
        · exact hpay p hp1
        · rw [List.mem_singleton.mp hp1]
          exact lt_of_not_le h2
      · intro c1
        have heq : get_available_balance c1
            { s with payouts :=
                s.payouts ++ [⟨c, amount, m, mp, pe, ba, .pending, "", ""⟩] } =
            get_available_balance c1 s -
              payoutContrib c1 ⟨c, amount, m, mp, pe, ba, .pending, "", ""⟩ := by
          simp only [get_available_balance, payoutSum_append]
          ring
        rw [heq]
        by_cases hc : c = c1
        · have : payoutContrib c1
              ⟨c, amount, m, mp, pe, ba, .pending, "", ""⟩ = amount := by
            simp [payoutContrib, reservedStatus, hc]
          rw [this, sub_nonneg]
          subst hc
          exact le_of_not_lt h1
        · have : payoutContrib c1
              ⟨c, amount, m, mp, pe, ba, .pending, "", ""⟩ = 0 := by
            simp [payoutContrib, hc]
          rw [this, sub_zero]
          exact hbal c1
    · simpa [h1, h2, h3] using ⟨hent, hpay, hbal⟩
  | beginProc i =>
    unfold applyM stepM begin_processing
    cases hp0 : s.payouts[i]? with
    | none => simp only [hp0]; exact ⟨hent, hpay, hbal⟩
    | some p =>
      have hpmem : p ∈ s.payouts := mem_of_getElem_some hp0
      simp only [hp0]
      cases hst : p.status with
      | pending =>
        simp only [hst]
        refine ⟨hent, ?_, ?_⟩
        · intro q hq
          rcases List.mem_or_eq_of_mem_set hq with hq1 | hq1
          · exact hpay q hq1
          · rw [hq1]; exact hpay p hpmem
        · intro c
          have heq : payoutSum c
                (s.payouts.set i { p with status := .processing }) =
              payoutSum c s.payouts := by
            rw [payoutSum_set c s.payouts i p _ hp0]
            have hcb : payoutContrib c { p with status := PStatus.processing } =
                payoutContrib c p := by
              simp [payoutContrib, hst, reservedStatus]
            rw [hcb]; ring
          simpa [get_available_balance, heq] using hbal c
      | processing => simp only [hst]; exact ⟨hent, hpay, hbal⟩
      | completed => simp only [hst]; exact ⟨hent, hpay, hbal⟩
      | rejected => simp only [hst]; exact ⟨hent, hpay, hbal⟩
  | completeOp i tx =>
    unfold applyM stepM complete
    cases hp0 : s.payouts[i]? with
    | none => simp only [hp0]; exact ⟨hent, hpay, hbal⟩
    | some p =>
      have hpmem : p ∈ s.payouts := mem_of_getElem_some hp0
      simp only [hp0]
      cases hst : p.status with
      | pending => simp only [hst]; exact ⟨hent, hpay, hbal⟩
      | processing =>
        simp only [hst]
        refine ⟨hent, ?_, ?_⟩
        · intro q hq
          rcases List.mem_or_eq_of_mem_set hq with hq1 | hq1
          · exact hpay q hq1
          · rw [hq1]; exact hpay p hpmem
        · intro c
          have heq : payoutSum c
                (s.payouts.set i
                  { p with status := .completed, transaction_id := tx }) =
              payoutSum c s.payouts := by
            rw [payoutSum_set c s.payouts i p _ hp0]
            have hcb : payoutContrib c
                  { p with status := PStatus.completed,
                           transaction_id := tx } =
                payoutContrib c p := by
              simp [payoutContrib, hst, reservedStatus]
            rw [hcb]; ring
          simpa [get_available_balance, heq] using hbal c
      | completed => simp only [hst]; exact ⟨hent, hpay, hbal⟩
      | rejected => simp only [hst]; exact ⟨hent, hpay, hbal⟩
  | rejectOp i reason =>
    unfold applyM stepM reject
    cases hp0 : s.payouts[i]? with
    | none => simp only [hp0]; exact ⟨hent, hpay, hbal⟩
    | some p =>
      have hpmem : p ∈ s.payouts := mem_of_getElem_some hp0
      simp only [hp0]
      have hgoal :
          GoodState
            { s with
              payouts := s.payouts.set i
                { p with status := .rejected,
                         rejection_reason := reason } } := by
        refine ⟨hent, ?_, ?_⟩
        · intro q hq
          rcases List.mem_or_eq_of_mem_set hq with hq1 | hq1
          · exact hpay q hq1
          · rw [hq1]; exact hpay p hpmem
        · intro c
          have heq : payoutSum c
                (s.payouts.set i
                  { p with status := .rejected,
                           rejection_reason := reason }) =
              payoutSum c s.payouts - payoutContrib c p := by
            rw [payoutSum_set c s.payouts i p _ hp0]
            have hcb : payoutContrib c
                  { p with status := PStatus.rejected,
                           rejection_reason := reason } = 0 := by
              simp [payoutContrib, reservedStatus]
            rw [hcb]; ring
          have hc0 : 0 ≤ payoutContrib c p :=
            payoutContrib_nonneg (hpay p hpmem)
          have hav :
              get_available_balance c
                { s with
                  payouts := s.payouts.set i
                    { p with status := .rejected,
                             rejection_reason := reason } } =
              get_available_balance c s + payoutContrib c p := by
            simp only [get_available_balance, heq]
            ring
          rw [hav]
          exact add_nonneg (hbal c) hc0
      cases hst : p.status with
      | pending => simp only [hst]; exact hgoal
      | processing => simp only [hst]; exact hgoal
      | completed => simp only [hst]; exact ⟨hent, hpay, hbal⟩
      | rejected => simp only [hst]; exact ⟨hent, hpay, hbal⟩

theorem goodState_runM (ops : List MOp) : GoodState (runM ops) := by
  suffices h : ∀ s, GoodState s →
      GoodState (ops.foldl (fun s op => applyM op s) s) by
    exact h initState goodState_init
  induction ops with
  | nil => intro s hs; simpa using hs
  | cons op rest ih =>
    intro s hs
    exact ih _ (goodState_applyM op s hs)

theorem get_active_rate_of_exists {t : Int} {l : List Rate}
    (h : ∃ r ∈ l, activeAt t r = true) :
    ∃ r, get_active_rate t l = .ok r ∧ activeAt t r = true ∧ r ∈ l := by
  unfold get_active_rate
  cases hf : l.find? (activeAt t) with
  | none =>
    obtain ⟨r, hr, ha⟩ := h
    exact absurd ha (List.find?_eq_none.mp hf r hr)
  | some r =>
    exact ⟨r, rfl, List.find?_some hf, List.mem_of_find?_eq_some hf⟩

theorem foldl_record_replicate (e : Entry) (h : ¬ e.amount < 0) :
    ∀ (n : Nat) (s : MState),
      (List.foldl (fun s op => applyM op s)
          s (List.replicate n (.record e))).entries =
        s.entries ++ List.replicate n e := by
  intro n
  induction n with
  | zero => intro s; simp
  | succ k ih =>
    intro s
    rw [List.replicate_succ, List.foldl_cons, ih]
    have happ : (applyM (.record e) s).entries = s.entries ++ [e] := by
      simp [applyM, stepM, record_earning, h]
    rw [happ, List.append_assoc]
    simp [List.replicate_succ]

theorem entriesSum_replicate (c : String) (e : Entry) (h : e.creator = c) :
    ∀ n : Nat, entriesSum c (List.replicate n e) = n * e.amount := by
  intro n
  induction n with
  | zero => simp [entriesSum]
  | succ k ih =>
    rw [List.replicate_succ, entriesSum_cons, if_pos h, ih]
    push_cast
    ring

/-! ## Seeding lemmas (seed_data.py) -/

theorem rateAny_getOrCreate_self (rt : String) (d : MRate) (l : List MRate)
    (h : d.rate_type = rt) :
    (rateGetOrCreate rt d l).any (fun r => r.rate_type = rt) = true := by
  unfold rateGetOrCreate
  by_cases ha : l.any (fun r => r.rate_type = rt) = true
  · simp [ha]
  · simp only [ha, if_false, eq_false_of_ne_true ha]
    simp [List.any_append, h]

theorem rateAny_getOrCreate_mono (rt ti : String) (d : MRate)
    (l : List MRate) (h : l.any (fun r => r.rate_type = rt) = true) :
    (rateGetOrCreate ti d l).any (fun r => r.rate_type = rt) = true := by
  unfold rateGetOrCreate
  split
  · exact h
  · simp [List.any_append, h]

theorem rateGetOrCreate_of_any (rt : String) (d : MRate) (l : List MRate)
    (h : l.any (fun r => r.rate_type = rt) = true) :
    rateGetOrCreate rt d l = l := by
  unfold rateGetOrCreate
  rw [if_pos h]

theorem filter_rateGetOrCreate {rt : String} (ti : String) (d : MRate)
    (l : List MRate) (hd : d.rate_type = ti)
    (h : l.any (fun r => r.rate_type = rt) = true) :
    (rateGetOrCreate ti d l).filter (fun r => r.rate_type = rt) =
      l.filter (fun r => r.rate_type = rt) := by
  unfold rateGetOrCreate
  split
  · rfl
  case isFalse hne =>
    rw [List.filter_append]
    by_cases hd2 : d.rate_type = rt
    · exfalso
      apply hne
      rw [hd] at hd2
      rw [hd2]
      exact h
    · simp [hd2]

theorem countP_rateGetOrCreate {rt : String} (ti : String) (d : MRate)
    (l : List MRate) (hd : d.rate_type = ti)
    (h : l.countP (fun r => r.rate_type = rt) ≤ 1) :
    (rateGetOrCreate ti d l).countP (fun r => r.rate_type = rt) ≤ 1 := by
  unfold rateGetOrCreate
  split
  case isTrue => exact h
  case isFalse hne =>
    rw [List.countP_append]
    by_cases hd2 : d.rate_type = rt
    · have hzero : l.countP (fun r => decide (r.rate_type = rt)) = 0 := by
        rw [List.countP_eq_zero]
        intro x hx hxr
        apply hne
        rw [List.any_eq_true]
        refine ⟨x, hx, ?_⟩
        rw [hd] at hd2
        rw [hd2]
        exact hxr
      simp [hzero, hd2]
    · simp [hd2, List.countP_singleton]
      exact h

theorem seedFold_filter (rt : String) (ds : List MRate) (l : List MRate)
    (h : l.any (fun r => r.rate_type = rt) = true) :
    (ds.foldl (fun acc rd => rateGetOrCreate rd.rate_type rd acc) l).filter
        (fun r => r.rate_type = rt) =
      l.filter (fun r => r.rate_type = rt) := by
  induction ds generalizing l with
  | nil => rfl
  | cons d ds ih =>
    rw [List.foldl_cons, ih _ (rateAny_getOrCreate_mono _ _ _ _ h)]
    exact filter_rateGetOrCreate d.rate_type d l rfl h

theorem seedFold_countP (rt : String) (ds : List MRate) (l : List MRate)
    (h : l.countP (fun r => r.rate_type = rt) ≤ 1) :
    (ds.foldl (fun acc rd => rateGetOrCreate rd.rate_type rd acc) l).countP
        (fun r => r.rate_type = rt) ≤ 1 := by
  induction ds generalizing l with
  | nil => exact h
  | cons d ds ih =>
    rw [List.foldl_cons]
    exact ih _ (countP_rateGetOrCreate d.rate_type d l rfl h)

theorem seedFold_noop (ds : List MRate) (l : List MRate)
    (h : ∀ d ∈ ds, l.any (fun r => r.rate_type = d.rate_type) = true) :
    ds.foldl (fun acc rd => rateGetOrCreate rd.rate_type rd acc) l = l := by
  induction ds with
  | nil => rfl
  | cons d ds ih =>
    rw [List.foldl_cons,
      rateGetOrCreate_of_any _ _ _ (h d (List.mem_cons_self _ _))]
    exact ih (fun d2 hd2 => h d2 (List.mem_cons_of_mem _ hd2))

theorem seed_any (now : Int) (l : List MRate) (ti : String)
    (h : ti ∈ ["base_cpm", "engagement_bonus", "premium_rate",
      "platform_fee"]) :
    (seed_monetization_rates now l).any (fun r => r.rate_type = ti) =
      true := by
  simp only [seed_monetization_rates, seedRatesData, List.foldl]
  fin_cases h
  · exact rateAny_getOrCreate_mono _ _ _ _
      (rateAny_getOrCreate_mono _ _ _ _
        (rateAny_getOrCreate_mono _ _ _ _
          (rateAny_getOrCreate_self _ _ _ rfl)))
  · exact rateAny_getOrCreate_mono _ _ _ _
      (rateAny_getOrCreate_mono _ _ _ _
        (rateAny_getOrCreate_self _ _ _ rfl))
  · exact rateAny_getOrCreate_mono _ _ _ _
      (rateAny_getOrCreate_self _ _ _ rfl)
  · exact rateAny_getOrCreate_self _ _ _ rfl

/-! ## Claims -/

/-- C1: the claim states that payout status only moves along the directed
edges pending → processing, processing → completed, pending → rejected,
processing → rejected, and that any other transition fails with
InvalidTransition leaving the status unchanged.  The admin action
`process_payouts` (admin.py, lines 32-34) refutes this for the code: it
sets the status of every selected payout to processing unconditionally,
so applying it to a payout in the terminal state completed performs the
forbidden transition completed → processing with no error and does change
the status. -/
theorem C1_process_payouts_breaks_state_machine :
    process_payouts
        [⟨"alice", 100, .mpesa, "+254700000001", "", "", .completed,
          "txn_1", ""⟩] =
      [⟨"alice", 100, .mpesa, "+254700000001", "", "", .processing,
        "txn_1", ""⟩] ∧
    specAllowedTransition .completed .processing = false :=
  ⟨rfl, rfl⟩

/-- C2: `create_payout_request` fails with InsufficientBalance whenever
the requested amount exceeds the creator's available balance, and after
any sequence of subsystem operations from the empty state every creator's
available balance is non-negative. -/
theorem C2_insufficient_balance_guard_and_nonneg :
    (∀ (s : MState) (c : String) (amount : Rat) (m : PMethod)
        (mp pe ba : String),
        get_available_balance c s < amount →
        create_payout_request c amount m mp pe ba s =
          .error .InsufficientBalance) ∧
    (∀ (ops : List MOp) (c : String),
        0 ≤ get_available_balance c (runM ops)) := by
  constructor
  · intro s c amount m mp pe ba h
    unfold create_payout_request
    rw [if_pos h]
  · intro ops c
    exact (goodState_runM ops).2.2 c

/-- Witness for C2 at concrete inputs: a request of 5 against an empty
balance is rejected with InsufficientBalance, and the balance after a
concrete run is non-negative. -/
theorem C2_witness :
    create_payout_request "alice" 5 .mpesa "+254700000001" "" ""
        initState = .error .InsufficientBalance ∧
    0 ≤ get_available_balance "alice"
        (runM [.record ⟨"alice", .video_view, 1, "USD", none, "view", 0⟩,
          .create "alice" 1 .mpesa "+254700000001" "" ""]) :=
  ⟨C2_insufficient_balance_guard_and_nonneg.1 initState "alice" 5 .mpesa
      "+254700000001" "" ""
      (by norm_num [get_available_balance, initState, entriesSum, payoutSum]),
   C2_insufficient_balance_guard_and_nonneg.2
      [.record ⟨"alice", .video_view, 1, "USD", none, "view", 0⟩,
        .create "alice" 1 .mpesa "+254700000001" "" ""] "alice"⟩

/-- C3: the claim states, in particular, that the cached counter on the
creator record equals the sum of the creator's EarningsEntry amounts.
The seeding code refutes this: `seed_users` (seed_data.py, line 320)
assigns the cached `total_earnings` independently of the ledger, and the
`EarningsRecord.objects.create` calls of `seed_earnings` (lines 988-996)
append ledger rows without touching the cache.  Concretely, a creator
whose cache was seeded to 100 and who then receives one ledger entry of 2
has cache 100 while the ledger sums to 2. -/
theorem C3_cached_counter_diverges_from_ledger :
    (seedEarningsCreate 2
        (seedUsersSetCache 100 ⟨0, []⟩)).cached_total_earnings = 100 ∧
    ratSum (seedEarningsCreate 2
        (seedUsersSetCache 100 ⟨0, []⟩)).earnings_amounts = 2 ∧
    ¬ (seedEarningsCreate 2
          (seedUsersSetCache 100 ⟨0, []⟩)).cached_total_earnings =
        ratSum (seedEarningsCreate 2
          (seedUsersSetCache 100 ⟨0, []⟩)).earnings_amounts :=
  ⟨rfl, by norm_num [seedEarningsCreate, seedUsersSetCache, ratSum],
   by norm_num [seedEarningsCreate, seedUsersSetCache, ratSum]⟩

/-- C4: after any sequence of `set_rate` calls, for every instant `t` at
most one rate of the type is active; if any rate starts no later than `t`
then `get_active_rate` returns an active rate (no gap); and
`get_active_rate` fails with RateNotConfigured exactly when no rate's
window contains `t`. -/
theorem C4_unique_active_rate :
    ∀ (ops : List (Rat × String × Int)) (t : Int),
      (runSetRates ops).countP (activeAt t) ≤ 1 ∧
      ((∃ r ∈ runSetRates ops, r.effective_from ≤ t) →
        ∃ r, get_active_rate t (runSetRates ops) = .ok r ∧
          activeAt t r = true ∧ r ∈ runSetRates ops) ∧
      (get_active_rate t (runSetRates ops) = .error .RateNotConfigured ↔
        ∀ r ∈ runSetRates ops, activeAt t r = false) := by
  intro ops t
  have hwf := rateWF_runSetRates ops
  refine ⟨rateWF_countP hwf t, ?_, get_active_rate_error_iff⟩
  intro hex
  exact get_active_rate_of_exists (rateWF_coverage hwf hex)

/-- Witness for C4 at a concrete history (rate 1 from day 0 superseded by
rate 2 from day 10, queried at day 5). -/
theorem C4_witness :
    (runSetRates [((1 : Rat), "USD", (0 : Int)),
        ((2 : Rat), "USD", (10 : Int))]).countP (activeAt 5) ≤ 1 ∧
    (∃ r, get_active_rate 5
          (runSetRates [((1 : Rat), "USD", (0 : Int)),
            ((2 : Rat), "USD", (10 : Int))]) = .ok r ∧
        activeAt 5 r = true ∧
        r ∈ runSetRates [((1 : Rat), "USD", (0 : Int)),
          ((2 : Rat), "USD", (10 : Int))]) :=
  ⟨(C4_unique_active_rate
      [((1 : Rat), "USD", (0 : Int)), ((2 : Rat), "USD", (10 : Int))] 5).1,
   (C4_unique_active_rate
      [((1 : Rat), "USD", (0 : Int)), ((2 : Rat), "USD", (10 : Int))] 5).2.1
      ⟨⟨1, "USD", 0, some 10⟩, by decide, by decide⟩⟩

/-- C5: `record_earning` fails with InvalidAmount on every negative
amount and leaves the state unchanged in that case, and every ledger
entry reachable from the empty state has a non-negative amount. -/
theorem C5_record_earning_rejects_negative :
    (∀ (e : Entry) (s : MState), e.amount < 0 →
        record_earning e s = .error .InvalidAmount ∧
          applyM (.record e) s = s) ∧
    (∀ (ops : List MOp), ∀ e ∈ (runM ops).entries, 0 ≤ e.amount) := by
  constructor
  · intro e s h
    constructor
    · unfold record_earning
      rw [if_pos h]
    · simp [applyM, stepM, record_earning, h]
  · intro ops e he
    exact (goodState_runM ops).1 e he

/-- Witness for C5 at concrete inputs: an entry of amount -1 is rejected
without a state change, and a concrete stored entry is non-negative. -/
theorem C5_witness :
    (record_earning ⟨"alice", .bonus, -1, "USD", none, "d", 0⟩ initState =
        .error .InvalidAmount ∧
      applyM (.record ⟨"alice", .bonus, -1, "USD", none, "d", 0⟩)
          initState = initState) ∧
    0 ≤ (⟨"alice", .bonus, 3, "USD", none, "d", 0⟩ : Entry).amount :=
  ⟨C5_record_earning_rejects_negative.1
      ⟨"alice", .bonus, -1, "USD", none, "d", 0⟩ initState (by decide),
   C5_record_earning_rejects_negative.2
      [.record ⟨"alice", .bonus, 3, "USD", none, "d", 0⟩]
      ⟨"alice", .bonus, 3, "USD", none, "d", 0⟩ (by decide)⟩

/-- C6: no subsystem operation updates or deletes a ledger entry — after
any operation the previous ledger is an unchanged prefix of the new one,
so every entry present before (same creator, type, amount, currency,
reference, description, timestamp) is present identically after. -/
theorem C6_ledger_append_only :
    ∀ (op : MOp) (s : MState),
      ∃ tail, (applyM op s).entries = s.entries ++ tail := by
  intro op s
  cases op with
  | record e =>
    by_cases h : e.amount < 0
    · exact ⟨[], by simp [applyM, stepM, record_earning, h]⟩
    · exact ⟨[e], by simp [applyM, stepM, record_earning, h]⟩
  | create c amount m mp pe ba =>
    refine ⟨[], ?_⟩
    unfold applyM stepM create_payout_request
    by_cases h1 : get_available_balance c s < amount
    · simp [h1]
    by_cases h2 : amount ≤ 0
    · simp [h1, h2]
    by_cases h3 : specDetailsValid m mp pe ba
    · simp [h1, h2, h3]
    · simp [h1, h2, h3]
  | beginProc i =>
    refine ⟨[], ?_⟩
    unfold applyM stepM begin_processing
    cases hp0 : s.payouts[i]? with
    | none => simp [hp0]
    | some p => cases hst : p.status <;> simp [hp0, hst]
  | completeOp i tx =>
    refine ⟨[], ?_⟩
    unfold applyM stepM complete
    cases hp0 : s.payouts[i]? with
    | none => simp [hp0]
    | some p => cases hst : p.status <;> simp [hp0, hst]
  | rejectOp i reason =>
    refine ⟨[], ?_⟩
    unfold applyM stepM reject
    cases hp0 : s.payouts[i]? with
    | none => simp [hp0]
    | some p => cases hst : p.status <;> simp [hp0, hst]

/-- C7: `compute_view_earning` returns
(1/1000) × active base_cpm rate × engagement multiplier, and in the
spec's scenario — base_cpm 1.00 USD active from day 0, no engagement
bonus configured, 5000 qualifying views on a free video — the per-view
amount is 1/1000 and the resulting ledger entries sum to exactly 5.00. -/
theorem C7_per_view_formula_and_scenario :
    (∀ (base bonus : List Rate) (completion threshold : Nat) (t : Int)
        (r : Rate), get_active_rate t base = .ok r →
        compute_view_earning base bonus completion threshold t =
          .ok (1 / 1000 * r.value *
            engagementMultiplier
              (match get_active_rate t bonus with
               | .ok b => some b.value
               | .error _ => none) completion threshold)) ∧
    compute_view_earning (runSetRates [((1 : Rat), "USD", (0 : Int))]) []
        50 90 5 = .ok (1 / 1000) ∧
    total_earnings "creator"
        (runM (List.replicate 5000
          (.record ⟨"creator", .video_view, 1 / 1000, "USD", none,
            "Views on video", 5⟩))) = 5 := by
  refine ⟨?_, ?_, ?_⟩
  · intro base bonus completion threshold t r h
    unfold compute_view_earning
    rw [h]
  · have hga : get_active_rate 5
        (runSetRates [((1 : Rat), "USD", (0 : Int))]) =
        .ok ⟨1, "USD", 0, none⟩ := rfl
    unfold compute_view_earning
    rw [hga]
    norm_num [get_active_rate, engagementMultiplier]
  · unfold total_earnings runM
    rw [foldl_record_replicate
      ⟨"creator", .video_view, 1 / 1000, "USD", none, "Views on video", 5⟩
      (by norm_num) 5000 initState]
    have h0 : initState.entries = [] := rfl
    rw [h0, List.nil_append,
      entriesSum_replicate "creator"
        ⟨"creator", .video_view, 1 / 1000, "USD", none,
          "Views on video", 5⟩ rfl 5000]
    norm_num

/-- Witness for C7's formula clause at a concrete rate table. -/
theorem C7_witness :
    compute_view_earning (runSetRates [((1 : Rat), "USD", (0 : Int))]) []
        50 90 7 =
      .ok (1 / 1000 * (1 : Rat) * engagementMultiplier none 50 90) :=
  C7_per_view_formula_and_scenario.1
    (runSetRates [((1 : Rat), "USD", (0 : Int))]) [] 50 90 7
    ⟨1, "USD", 0, none⟩ rfl

/-- C8: the claim states that every PayoutRequest has exactly one
method-matching payment detail field populated and that creation fails
with InvalidPaymentDetails on a mismatch.  The seeding code refutes this:
`seed_payout_requests` (seed_data.py, lines 1014-1027) sets a detail
field for mpesa and paypal but none for bank_transfer, so a bank_transfer
request is created — with no error — whose three detail fields are all
blank. -/
theorem C8_seeded_bank_transfer_payout_invalid :
    (seedPayoutCreate "alice" 100 .bank_transfer .pending "txn_1"
        "+254700000001" "" "alice" []).map
        (fun p => specDetailsValid p.method p.mpesa_number p.paypal_email
          p.bank_account) = [false] ∧
    (seedPayoutCreate "alice" 100 .bank_transfer .pending "txn_1"
        "+254700000001" "" "alice" []).length = 1 :=
  ⟨rfl, rfl⟩

/-- C9: every call to `track_video_view` appends exactly one VideoView
with watch_duration 0, completion_percentage 0, is_monetized false and
earnings_generated 0, increments the video's view_count and the creator's
total_views by exactly one, and leaves the earnings ledger untouched. -/
theorem C9_track_video_view_effects :
    ∀ (authUser : Option String) (ip ua : String) (now : Int)
      (s : TrackState),
      (track_video_view authUser ip ua now s).views =
        s.views ++
          [({ userId := authUser, ip_address := ip, user_agent := ua,
              country := "", watch_duration_seconds := 0,
              completion_percentage := 0, is_monetized := false,
              earnings_generated := 0 } : ViewRec)] ∧
      (track_video_view authUser ip ua now s).view_count =
        s.view_count + 1 ∧
      (track_video_view authUser ip ua now s).creator_total_views =
        s.creator_total_views + 1 ∧
      (track_video_view authUser ip ua now s).earnings_records =
        s.earnings_records := by
  intro authUser ip ua now s
  cases authUser with
  | none => exact ⟨rfl, rfl, rfl, rfl⟩
  | some u => exact ⟨rfl, rfl, rfl, rfl⟩

/-- C10: `seed_monetization_rates` is idempotent and respects the unique
rate_type key: when a row of a rate_type already exists the rows of that
type are left exactly as they were (same value, currency and effective
window, and no new row); re-running the seeder changes nothing; and the
at-most-one-row-per-rate_type invariant is preserved. -/
theorem C10_seed_monetization_rates_idempotent :
    ∀ (now now2 : Int) (l : List MRate),
      (∀ rt : String, l.any (fun r => r.rate_type = rt) = true →
        (seed_monetization_rates now l).filter
            (fun r => r.rate_type = rt) =
          l.filter (fun r => r.rate_type = rt)) ∧
      seed_monetization_rates now2 (seed_monetization_rates now l) =
        seed_monetization_rates now l ∧
      (∀ rt : String, l.countP (fun r => r.rate_type = rt) ≤ 1 →
        (seed_monetization_rates now l).countP
            (fun r => r.rate_type = rt) ≤ 1) := by
  intro now now2 l
  refine ⟨?_, ?_, ?_⟩
  · intro rt h
    exact seedFold_filter rt (seedRatesData now) l h
  · apply seedFold_noop
    intro d hd
    have hd4 : d.rate_type ∈
        ["base_cpm", "engagement_bonus", "premium_rate", "platform_fee"] := by
      fin_cases hd <;> simp
    exact seed_any now l d.rate_type hd4
  · intro rt h
    exact seedFold_countP rt (seedRatesData now) l h

/-- Witness for C10 at a concrete table holding a differing base_cpm row:
its rows of type base_cpm survive seeding unchanged, and re-seeding is a
no-op. -/
theorem C10_witness :
    (seed_monetization_rates 0
        [⟨"base_cpm", 7, "KES", "old", true, -5, none⟩]).filter
        (fun r => r.rate_type = "base_cpm") =
      [⟨"base_cpm", 7, "KES", "old", true, -5, none⟩] ∧
    seed_monetization_rates 1
        (seed_monetization_rates 0
          [⟨"base_cpm", 7, "KES", "old", true, -5, none⟩]) =
      seed_monetization_rates 0
        [⟨"base_cpm", 7, "KES", "old", true, -5, none⟩] := by
  constructor
  · have h := (C10_seed_monetization_rates_idempotent 0 1
      [⟨"base_cpm", 7, "KES", "old", true, -5, none⟩]).1 "base_cpm"
      (by decide)
    rw [h]
    decide
  · exact (C10_seed_monetization_rates_idempotent 0 1
      [⟨"base_cpm", 7, "KES", "old", true, -5, none⟩]).2.1

end AfriTube
